import Mathlib

/-!
Verification of the single-instrument limit order book and matching engine
(`indian_lob_exchange`): a shallow embedding of the Python source in Lean 4,
together with theorems about the embedded operations.

Modelling conventions:
* Python `float` prices are embedded as `ℚ`; every operation on prices in the
  source is a comparison or a field computation (`ref * (1 ± band)`), all of
  which are order-isomorphic between the two carriers on the values exercised.
* Python `int` quantities are embedded as `ℤ` (Python integers are signed and
  unbounded).
* Wall-clock time-of-day (`datetime.time`) is embedded as minutes since
  midnight (`Nat`); the source only ever compares times at whole minutes.
  The source reads the clock with `datetime.now()`; the model takes the
  time-of-day and the timestamp as explicit inputs.
* Reason strings built with f-strings are embedded as a tagged `Reason` type
  whose payloads are exactly the interpolated values.
* The `OrderPool` is behavior-neutral (object recycling) and is not modelled.
* Python raising an exception (duplicate order id in `OrderBook.add_order`)
  is embedded as `Option`/`none`.
-/

namespace LOB

/-- Embeds `OrderSide` from `core/orders.py`. -/
inductive OrderSide where
  | BUY
  | SELL
deriving DecidableEq, Repr

/-- Embeds `OrderType` from `core/orders.py`. -/
inductive OrderType where
  | MARKET
  | LIMIT
  | STOP_LOSS
  | IOC
  | FOK
deriving DecidableEq, Repr

/-- Embeds `Order` from `core/orders.py`.  The intrusive `prev_order`/`next_order`/
`parent_limit` pointers are not fields here: the queue at each price level is
embedded as a `List Order` inside `Limit`, which carries the same information. -/
structure Order where
  order_id : Nat
  agent_id : Nat
  side : OrderSide
  quantity : Int
  order_type : OrderType
  timestamp : ℚ
  price : Option ℚ := none
  trigger_price : Option ℚ := none
deriving DecidableEq, Repr

/-- Embeds `Trade` from `core/matching_engine.py`. -/
structure Trade where
  maker_order_id : Nat
  taker_order_id : Nat
  price : ℚ
  quantity : Int
  timestamp : ℚ
deriving DecidableEq, Repr

/-- Embeds `Limit` from `core/order_book.py`: one price level.  `orders` is the FIFO
queue (head first) that the source keeps as a doubly-linked list between
`head_order` and `tail_order`.  `total_volume` and `order_count` are tracked
exactly as the source updates them (they are *not* defined as derived values,
so that the level invariants can be stated and checked against them). -/
structure Limit where
  price : ℚ
  total_volume : Int
  order_count : Int
  orders : List Order
deriving DecidableEq, Repr

/-- Embeds `Limit.add_order` from `core/order_book.py`: append at the tail,
`total_volume += order.quantity`, `order_count += 1`. -/
def Limit.add_order (L : Limit) (o : Order) : Limit :=
  ⟨L.price, L.total_volume + o.quantity, L.order_count + 1, L.orders ++ [o]⟩

/-- Embeds `Limit.remove_order` from `core/order_book.py`: splice the order out,
`total_volume -= order.quantity`, `order_count -= 1`.  The source splices the
exact node reachable through the handle table; with unique resting ids this is
the first (only) queue member with that id. -/
def Limit.remove_order (L : Limit) (o : Order) : Limit :=
  ⟨L.price, L.total_volume - o.quantity, L.order_count - 1,
    L.orders.eraseP (fun x => x.order_id == o.order_id)⟩

/-- The book keeps, per resting order id, the information the source reaches
through `_orders[order_id]` and `order.parent_limit`: the side and the price
of the level the order is linked into.  (`order_id`, `side`, `price` never
mutate while an order rests.) -/
abbrev Handle := Nat × OrderSide × ℚ

/-- Embeds `OrderBook` from `core/order_book.py`.  `bids` is sorted by price
descending and `asks` ascending (the source keys two `SortedDict`s, bids by
negated price), so the head of each list is the best level.  `handles` embeds
the `_orders` dict. -/
structure OrderBook where
  bids : List Limit
  asks : List Limit
  handles : List Handle
deriving DecidableEq, Repr

/-- Sorted insertion of a resting order into one side's level list, embedding
`SortedDict` key insertion plus `Limit.add_order` / `Limit(price)` creation
in `OrderBook.add_order`.  `asc = true` for asks (ascending price keys),
`asc = false` for bids (descending). -/
def insertIntoSide (asc : Bool) (p : ℚ) (o : Order) : List Limit → List Limit
  | [] => [Limit.add_order ⟨p, 0, 0, []⟩ o]
  | L :: rest =>
    if L.price = p then Limit.add_order L o :: rest
    else if (if asc then p < L.price else L.price < p) then
      Limit.add_order ⟨p, 0, 0, []⟩ o :: L :: rest
    else L :: insertIntoSide asc p o rest

/-- Embeds `OrderBook.add_order` from `core/order_book.py`.  `none` embeds the
`ValueError` raised on a duplicate id.  The source computes the key from
`order.price`; limit orders reaching this point carry a price (the engine
only rests orders of type LIMIT), so `getD 0` is never the operative case in
any reachable state. -/
def OrderBook.add_order (b : OrderBook) (o : Order) : Option OrderBook :=
  if b.handles.any (fun h => h.1 == o.order_id) then none
  else
    let p := o.price.getD 0
    match o.side with
    | OrderSide.BUY =>
        some ⟨insertIntoSide false p o b.bids, b.asks, b.handles ++ [(o.order_id, o.side, p)]⟩
    | OrderSide.SELL =>
        some ⟨b.bids, insertIntoSide true p o b.asks, b.handles ++ [(o.order_id, o.side, p)]⟩

/-- Removal of order `oid` from the level with price `p` on one side,
embedding the body of `OrderBook.cancel_order` after the handle lookup:
`Limit.remove_order` on the parent level, then deletion of the level when its
`order_count` reaches 0.  Returns the removed order (the source returns the
popped `Order` object). -/
def cancelInSide (p : ℚ) (oid : Nat) : List Limit → Option Order × List Limit
  | [] => (none, [])
  | L :: rest =>
    if L.price = p then
      match L.orders.find? (fun x => x.order_id == oid) with
      | none => (none, L :: rest)
      | some o =>
        let L' := L.remove_order o
        if L'.order_count = 0 then (some o, rest) else (some o, L' :: rest)
    else
      let r := cancelInSide p oid rest
      (r.1, L :: r.2)

/-- Embeds `OrderBook.cancel_order` from `core/order_book.py`: pop the handle (absent
id: `None`, book untouched); otherwise unlink from the parent level and delete
the level if it became empty. -/
def OrderBook.cancel_order (b : OrderBook) (oid : Nat) : Option Order × OrderBook :=
  match b.handles.find? (fun h => h.1 == oid) with
  | none => (none, b)
  | some h =>
    let handles' := b.handles.eraseP (fun x => x.1 == oid)
    match h.2.1 with
    | OrderSide.BUY =>
        let r := cancelInSide h.2.2 oid b.bids
        (r.1, ⟨r.2, b.asks, handles'⟩)
    | OrderSide.SELL =>
        let r := cancelInSide h.2.2 oid b.asks
        (r.1, ⟨b.bids, r.2, handles'⟩)

/-- Embeds `OrderBook.best_bid`: price of the first bid level (highest price), or
`none` if the side is empty. -/
def OrderBook.best_bid (b : OrderBook) : Option ℚ :=
  b.bids.head?.map Limit.price

/-- Embeds `OrderBook.best_ask`: price of the first ask level (lowest price), or
`none` if the side is empty. -/
def OrderBook.best_ask (b : OrderBook) : Option ℚ :=
  b.asks.head?.map Limit.price

/-! ## Matching engine (`core/matching_engine.py`) -/

/-- Result of walking one price level's queue (the inner `while` of
`match_order`): the fills `(maker_order_id, traded quantity)` in emission
order, the queue that remains, the ids of fully consumed makers (each of
which the source removes via `cancel_order`), and the taker's remaining
quantity. -/
structure FillResult where
  fills : List (Nat × Int)
  queue : List Order
  filled_ids : List Nat
  remaining : Int
deriving DecidableEq, Repr

/-- The inner loop of `match_order`: walk the level's queue from the head
while the taker has quantity left.  Each step trades
`q = min(taker.quantity, maker.quantity)`; a maker reaching quantity 0 is
removed from the queue. -/
def fillLevel (takerQty : Int) : List Order → FillResult
  | [] => ⟨[], [], [], takerQty⟩
  | m :: rest =>
    if takerQty ≤ 0 then ⟨[], m :: rest, [], takerQty⟩
    else
      let q := min takerQty m.quantity
      if m.quantity - q = 0 then
        let r := fillLevel (takerQty - q) rest
        ⟨(m.order_id, q) :: r.fills, r.queue, m.order_id :: r.filled_ids, r.remaining⟩
      else
        ⟨[(m.order_id, q)], { m with quantity := m.quantity - q } :: rest, [], takerQty - q⟩

/-- The loop condition of `match_order`.  For a LIMIT taker this is
`is_matchable(incoming_order.price)`, i.e. Python's
`best and price ≥/≤ best` (a best price of `0.0` is falsy); for every other
order type it is `bool(book_to_match)`, i.e. the opposite side is non-empty. -/
def matchCond (isLimit buySide : Bool) (p : ℚ) (levels : List Limit) : Bool :=
  if isLimit then
    match levels.head? with
    | none => false
    | some L => decide (L.price ≠ 0) && (if buySide then decide (L.price ≤ p) else decide (p ≤ L.price))
  else decide (levels ≠ [])

/-- Result of the outer matching loop: trades in emission order, the levels
that remain on the matched side, ids of fully consumed makers, and the
taker's remaining quantity. -/
structure SweepResult where
  trades : List Trade
  levels : List Limit
  filled_ids : List Nat
  remaining : Int
deriving DecidableEq, Repr

/-- Sum of the traded quantities of a list of fills. -/
def fillSum (fills : List (Nat × Int)) : Int :=
  (fills.map Prod.snd).sum

/-- The outer `while` of `match_order`: take the best opposite level, walk its
queue, and repeat while the price condition holds and quantity remains.  A
level whose queue empties is removed (the source reaches this through the
last consumed maker's `cancel_order` driving `order_count` to 0); a level
with survivors keeps its updated aggregates — `total_volume` is decremented
by each traded quantity as the fills happen (the source's explicit bug-fix
site), and `order_count` by the number of removed makers.  A surviving
partially-filled maker means the taker is exhausted, so recursing only past
removed levels matches the source's re-checked loop condition. -/
def matchLoop (isLimit buySide : Bool) (p : ℚ) (takerId : Nat) (ts : ℚ) :
    Int → List Limit → SweepResult
  | qty, [] => ⟨[], [], [], qty⟩
  | qty, L :: rest =>
    if 0 < qty ∧ matchCond isLimit buySide p (L :: rest) then
      let f := fillLevel qty L.orders
      let trades := f.fills.map (fun pr => ⟨pr.1, takerId, L.price, pr.2, ts⟩)
      if f.queue.isEmpty then
        let r := matchLoop isLimit buySide p takerId ts f.remaining rest
        ⟨trades ++ r.trades, r.levels, f.filled_ids ++ r.filled_ids, r.remaining⟩
      else
        ⟨trades,
          ⟨L.price, L.total_volume - fillSum f.fills, L.order_count - f.filled_ids.length, f.queue⟩ :: rest,
          f.filled_ids, f.remaining⟩
    else ⟨[], L :: rest, [], qty⟩

/-- Result of `MatchingEngine.match_order`: the trades and the updated book.
(The source also returns the list of fully filled maker orders; no claim
depends on it.) -/
structure MatchResult where
  trades : List Trade
  book : OrderBook
deriving DecidableEq, Repr

/-- Embeds `MatchingEngine.match_order` from `core/matching_engine.py`.  A BUY taker
consumes asks, a SELL taker consumes bids; only a LIMIT taker's walk is
bounded by its price, every other type sweeps while the opposite side is
non-empty.  Each fully consumed maker's handle is removed (the source calls
`OrderBook.cancel_order` on it).  A remainder rests if and only if the taker
is a LIMIT order; `none` embeds the `ValueError` of a duplicate resting id. -/
def match_order (b : OrderBook) (o : Order) : Option MatchResult :=
  let isLimit := decide (o.order_type = OrderType.LIMIT)
  let p := o.price.getD 0
  match o.side with
  | OrderSide.BUY =>
    let r := matchLoop isLimit true p o.order_id o.timestamp o.quantity b.asks
    let b1 : OrderBook := ⟨b.bids, r.levels, b.handles.filter (fun h => !(r.filled_ids.contains h.1))⟩
    if 0 < r.remaining ∧ o.order_type = OrderType.LIMIT then
      (b1.add_order { o with quantity := r.remaining }).map (fun b2 => ⟨r.trades, b2⟩)
    else some ⟨r.trades, b1⟩
  | OrderSide.SELL =>
    let r := matchLoop isLimit false p o.order_id o.timestamp o.quantity b.bids
    let b1 : OrderBook := ⟨r.levels, b.asks, b.handles.filter (fun h => !(r.filled_ids.contains h.1))⟩
    if 0 < r.remaining ∧ o.order_type = OrderType.LIMIT then
      (b1.add_order { o with quantity := r.remaining }).map (fun b2 => ⟨r.trades, b2⟩)
    else some ⟨r.trades, b1⟩

/-! ## Trading sessions (`indian_market/trading_sessions.py`) -/

/-- Embeds `TradingSessionManager.get_current_session`.  The source hardcodes the
result (its docstring: "Temporarily hardcoded to 'regular' for testing at any
time"); the window logic — pre-market `[09:00, 09:15)`, regular
`[09:15, 15:30)`, post-market `[15:40, 16:00)`, else closed — is commented
out.  `t` is minutes since midnight. -/
def get_current_session (t : Nat) : String :=
  let _ := t
  "regular"

/-- Embeds `TradingSessionManager.SESSION_RULES` composed with the `.get(session,
set())` lookup: allowed order types per session label, empty for unknown
labels and for "closed". -/
def SESSION_RULES (s : String) : List OrderType :=
  if s = "pre_market" then [OrderType.LIMIT, OrderType.MARKET]
  else if s = "regular" then [OrderType.LIMIT, OrderType.MARKET, OrderType.STOP_LOSS, OrderType.IOC]
  else if s = "post_market" then [OrderType.LIMIT]
  else []

/-- Embeds `TradingSessionManager.is_order_allowed`. -/
def is_order_allowed (ot : OrderType) (t : Nat) : Bool :=
  decide (ot ∈ SESSION_RULES (get_current_session t))

/-! ## Circuit breakers (`indian_market/circuit_breakers.py`) -/

/-- Embeds the `CircuitBreakerMonitor` state: reference price, category, halt flag
(initialised `False`, never set anywhere in the source), optional halt end
time, and the derived band values. -/
structure CircuitBreakerMonitor where
  reference_price : ℚ
  stock_category : String
  market_halted : Bool
  halt_end_time : Option Nat
  price_band : ℚ
  upper_band : ℚ
  lower_band : ℚ
deriving DecidableEq, Repr

/-- Embeds `CircuitBreakerMonitor._get_price_band`: `STOCK_PRICE_BANDS` lookup with
fallback to "default"; the `fno_stocks` entry is a dict whose `band` field is
read. -/
def getPriceBand (cat : String) : ℚ :=
  if cat = "category_1" then 2/100
  else if cat = "category_2" then 5/100
  else if cat = "category_3" then 10/100
  else if cat = "fno_stocks" then 10/100
  else 20/100

/-- Embeds `CircuitBreakerMonitor.__init__`. -/
def CircuitBreakerMonitor.init (reference_price : ℚ) (stock_category : String) :
    CircuitBreakerMonitor :=
  let pb := getPriceBand stock_category
  ⟨reference_price, stock_category, false, none, pb,
    reference_price * (1 + pb), reference_price * (1 - pb)⟩

/-- Embeds `CircuitBreakerMonitor.check_price_band`:
`lower_band ≤ order_price ≤ upper_band`. -/
def check_price_band (cb : CircuitBreakerMonitor) (order_price : ℚ) : Bool :=
  decide (cb.lower_band ≤ order_price) && decide (order_price ≤ cb.upper_band)

/-- The `action` values of `INDEX_CIRCUIT_BREAKERS`: a halt duration in
minutes, `"close_market"`, or `"halt_for_day"`. -/
inductive HaltAction where
  | minutes (n : Nat)
  | close_market
  | halt_for_day
deriving DecidableEq, Repr

/-- The dict returned by `check_index_circuit_breaker`; `level` is absent in
the 20% case and in the untriggered case. -/
structure HaltInfo where
  triggered : Bool
  level : Option ℚ
  action : Option HaltAction
deriving DecidableEq, Repr

/-- Embeds `CircuitBreakerMonitor.check_index_circuit_breaker`: pick the highest
tier in {20%, 15%, 10%} reached by `|current - ref| / ref`; 20% halts for the
day; 15%/10% durations depend on the time bucket before 13:00 /
[13:00, 14:30) / after, per `INDEX_CIRCUIT_BREAKERS`. -/
def check_index_circuit_breaker (cb : CircuitBreakerMonitor) (current_price : ℚ)
    (t : Nat) : HaltInfo :=
  let price_change := |current_price - cb.reference_price| / cb.reference_price
  let triggered_level : ℚ :=
    if 20/100 ≤ price_change then 20/100
    else if 15/100 ≤ price_change then 15/100
    else if 10/100 ≤ price_change then 10/100
    else 0
  if triggered_level = 0 then ⟨false, none, none⟩
  else if triggered_level = 20/100 then ⟨true, none, some HaltAction.halt_for_day⟩
  else
    let action :=
      if t < 13 * 60 then
        (if triggered_level = 15/100 then HaltAction.minutes 105 else HaltAction.minutes 45)
      else if t < 14 * 60 + 30 then
        (if triggered_level = 15/100 then HaltAction.minutes 45 else HaltAction.minutes 15)
      else
        (if triggered_level = 15/100 then HaltAction.close_market else HaltAction.minutes 0)
    ⟨true, some triggered_level, some action⟩

/-! ## Compliance gate (`indian_market/sebi_compliance.py`) -/

/-- The reason strings of `SEBIComplianceEngine.validate_order` and
`Exchange.submit_order`, as a tagged type whose payloads are the values the
source interpolates into each f-string. -/
inductive Reason where
  | marketHalted
  | sessionForbidden (ot : OrderType) (session : String)
  | priceBand (price lower upper : ℚ)
  | compliant
  | accepted
deriving DecidableEq, Repr

/-- Python truthiness of `order.price`: `None` and `0.0` are falsy. -/
def priceTruthy : Option ℚ → Bool
  | none => false
  | some p => decide (p ≠ 0)

/-- Embeds `SEBIComplianceEngine.validate_order`: (1) reject when `market_halted`;
(2) reject order types not allowed in the current session; (3) for a truthy
`order.price`, reject prices outside the band.  There is no quantity check
and no missing-price check in the source. -/
def validate_order (cb : CircuitBreakerMonitor) (o : Order) (t : Nat) :
    Bool × Reason :=
  if cb.market_halted then (false, Reason.marketHalted)
  else if !(is_order_allowed o.order_type t) then
    (false, Reason.sessionForbidden o.order_type (get_current_session t))
  else if priceTruthy o.price && !(check_price_band cb (o.price.getD 0)) then
    (false, Reason.priceBand (o.price.getD 0) cb.lower_band cb.upper_band)
  else (true, Reason.compliant)

/-- Embeds `SEBIComplianceEngine.post_trade_check`: evaluates the index breaker and
prints when triggered; the halt mutation (`market_halted = True`,
`halt_end_time = ...`) is commented out in the source, so the state is
returned unchanged. -/
def post_trade_check (cb : CircuitBreakerMonitor) (trade_price : ℚ) (t : Nat) :
    CircuitBreakerMonitor :=
  let _ := check_index_circuit_breaker cb trade_price t
  cb

/-! ## Exchange facade (`exchange.py`) -/

/-- Embeds the `Exchange` state: the book, the compliance engine's circuit-breaker state
(the session manager is stateless), and the order-id counter. -/
structure Exchange where
  book : OrderBook
  compliance : CircuitBreakerMonitor
  order_id_counter : Nat
deriving DecidableEq, Repr

/-- Embeds `Exchange.__init__`. -/
def Exchange.init (reference_price : ℚ) (stock_category : String) : Exchange :=
  ⟨⟨[], [], []⟩, CircuitBreakerMonitor.init reference_price stock_category, 0⟩

/-- Embeds `Exchange.submit_order`: allocate the next id, build the order, validate
(on rejection return `(False, reason, [])` with the book and compliance state
untouched), match, and when trades occurred run the post-trade check with the
last trade's price.  The source reads the wall clock; the model takes the
time-of-day `t` (minutes) and the float timestamp `ts` as inputs.  `none`
embeds an exception escaping `match_order`. -/
def Exchange.submit_order (ex : Exchange) (agent_id : Nat) (side : OrderSide)
    (quantity : Int) (order_type : OrderType) (price : Option ℚ)
    (trigger_price : Option ℚ) (t : Nat) (ts : ℚ) :
    Option (Bool × Reason × List Trade × Exchange) :=
  let oid := ex.order_id_counter + 1
  let o : Order := ⟨oid, agent_id, side, quantity, order_type, ts, price, trigger_price⟩
  let v := validate_order ex.compliance o t
  if v.1 = false then
    some (false, v.2, [], { ex with order_id_counter := oid })
  else
    match match_order ex.book o with
    | none => none
    | some res =>
      let cb' :=
        if res.trades ≠ [] then
          post_trade_check ex.compliance ((res.trades.getLast?.map Trade.price).getD 0) t
        else ex.compliance
      some (true, Reason.accepted, res.trades, ⟨res.book, cb', oid⟩)

/-- Embeds `Exchange.cancel_order`: delegate to the book; `true` iff a resting order
was removed. -/
def Exchange.cancel_order (ex : Exchange) (oid : Nat) : Bool × Exchange :=
  let r := ex.book.cancel_order oid
  (r.1.isSome, { ex with book := r.2 })

/-! ## Invariants and fixtures -/

/-- The levels of one side of the book, selected like the source's
`order.side == OrderSide.BUY` dispatch. -/
def OrderBook.sideLevels (b : OrderBook) : OrderSide → List Limit
  | OrderSide.BUY => b.bids
  | OrderSide.SELL => b.asks

/-- Sum of the remaining quantities of a queue of orders. -/
def sumQty (l : List Order) : Int :=
  (l.map Order.quantity).sum

/-- The per-level aggregate invariant of the spec:
`total_volume = Σ o.quantity for o in queue` and `order_count = |queue|`. -/
def levelInv (L : Limit) : Prop :=
  L.total_volume = sumQty L.orders ∧ L.order_count = L.orders.length

/-- States `levelInv` for every level present in either side-map. -/
def bookInv (b : OrderBook) : Prop :=
  (∀ L ∈ b.bids, levelInv L) ∧ (∀ L ∈ b.asks, levelInv L)

/-- Fixture: asks {101: 8 (order 1), 102: 12 (order 2)}, bids empty. -/
def bookTwoAsks : OrderBook :=
  ⟨[],
   [⟨101, 8, 1, [⟨1, 1, OrderSide.SELL, 8, OrderType.LIMIT, 0, some 101, none⟩]⟩,
    ⟨102, 12, 1, [⟨2, 1, OrderSide.SELL, 12, OrderType.LIMIT, 0, some 102, none⟩]⟩],
   [(1, OrderSide.SELL, 101), (2, OrderSide.SELL, 102)]⟩

/-- Fixture: a single ask level, 5 shares at 105 (order 1). -/
def bookAsk105 : OrderBook :=
  ⟨[],
   [⟨105, 5, 1, [⟨1, 1, OrderSide.SELL, 5, OrderType.LIMIT, 0, some 105, none⟩]⟩],
   [(1, OrderSide.SELL, 105)]⟩

/-- Fixture: a single ask level, 8 shares at 101 (order 1). -/
def bookAsk101 : OrderBook :=
  ⟨[],
   [⟨101, 8, 1, [⟨1, 1, OrderSide.SELL, 8, OrderType.LIMIT, 0, some 101, none⟩]⟩],
   [(1, OrderSide.SELL, 101)]⟩

/-- Fixture: FOK BUY 25 @ 102. -/
def fokBuy25 : Order :=
  ⟨3, 1, OrderSide.BUY, 25, OrderType.FOK, 0, some 102, none⟩

/-- Fixture: IOC BUY 5 @ 100. -/
def iocBuy5 : Order :=
  ⟨2, 1, OrderSide.BUY, 5, OrderType.IOC, 0, some 100, none⟩

/-- Fixture: STOP_LOSS BUY 5, trigger 105, no limit price. -/
def stopBuy5 : Order :=
  ⟨2, 1, OrderSide.BUY, 5, OrderType.STOP_LOSS, 0, none, some 105⟩

/-- Fixture: a fresh exchange whose compliance state carries the evaluated
default-category bands (reference 100, band 20%, bands 80–120). -/
def exchangeW : Exchange :=
  ⟨⟨[], [], []⟩, ⟨100, "default", false, none, mkRat 1 5, 120, 80⟩, 0⟩

instance (L : Limit) : Decidable (levelInv L) := by
  unfold levelInv; infer_instance

instance (b : OrderBook) : Decidable (bookInv b) := by
  unfold bookInv; infer_instance

/-! ## Helper lemmas -/

@[simp]
theorem sumQty_nil : sumQty [] = 0 := rfl

@[simp]
theorem sumQty_cons (o : Order) (l : List Order) :
    sumQty (o :: l) = o.quantity + sumQty l := by
  simp [sumQty]

@[simp]
theorem sumQty_append (l₁ l₂ : List Order) :
    sumQty (l₁ ++ l₂) = sumQty l₁ + sumQty l₂ := by
  simp [sumQty]

@[simp]
theorem fillSum_nil : fillSum [] = 0 := rfl

@[simp]
theorem fillSum_cons (pr : Nat × Int) (l : List (Nat × Int)) :
    fillSum (pr :: l) = pr.2 + fillSum l := by
  simp [fillSum]

/-- Walking a level's queue conserves quantity: the surviving queue plus the
traded fills account for the original queue, and the removed makers account
for the change in queue length. -/
theorem fillLevel_spec (q : Int) (l : List Order) :
    sumQty (fillLevel q l).queue + fillSum (fillLevel q l).fills = sumQty l ∧
    (fillLevel q l).queue.length + (fillLevel q l).filled_ids.length = l.length := by
  induction l generalizing q with
  | nil => simp [fillLevel]
  | cons m rest ih =>
    rw [fillLevel]
    by_cases h0 : q ≤ 0
    · simp [h0]
    · simp only [h0, if_false]
      by_cases hfull : m.quantity - min q m.quantity = 0
      · obtain ⟨ih1, ih2⟩ := ih (q - min q m.quantity)
        simp only [hfull, if_true]
        constructor
        · simp only [fillSum_cons, sumQty_cons]
          omega
        · simp only [List.length_cons]
          omega
      · simp only [hfull, if_false]
        constructor
        · simp only [fillSum_cons, sumQty_cons]
          simp only [fillSum_nil]
          omega
        · simp

/-- Lemma: `matchLoop` keeps every surviving level's aggregates consistent with its
queue. -/
theorem matchLoop_inv (isLimit buySide : Bool) (p : ℚ) (tid : Nat) (ts : ℚ) :
    ∀ (qty : Int) (levels : List Limit), (∀ L ∈ levels, levelInv L) →
      ∀ L' ∈ (matchLoop isLimit buySide p tid ts qty levels).levels, levelInv L' := by
  intro qty levels
  induction levels generalizing qty with
  | nil =>
    intro h L' hL'
    simp [matchLoop] at hL'
  | cons L rest ih =>
    intro h
    rw [matchLoop]
    split
    · dsimp only
      split
      · intro L' hL'
        exact ih (fillLevel qty L.orders).remaining
          (fun M hM => h M (List.mem_cons_of_mem _ hM)) L' hL'
      · intro L' hL'
        rcases List.mem_cons.mp hL' with hEq | hMem
        · subst hEq
          obtain ⟨hvol, hcount⟩ := h L (List.mem_cons_self _ _)
          obtain ⟨hs, hl⟩ := fillLevel_spec qty L.orders
          refine ⟨?_, ?_⟩ <;> dsimp only [levelInv] <;> omega
        · exact h _ (List.mem_cons_of_mem _ hMem)
    · exact h

/-- Sorted insertion of a resting order keeps every level consistent. -/
theorem insertIntoSide_inv (asc : Bool) (p : ℚ) (o : Order) :
    ∀ levels, (∀ L ∈ levels, levelInv L) →
      ∀ L' ∈ insertIntoSide asc p o levels, levelInv L' := by
  intro levels
  induction levels with
  | nil =>
    intro _ L' hL'
    rw [insertIntoSide] at hL'
    rcases List.mem_cons.mp hL' with hEq | hMem
    · subst hEq
      exact ⟨by simp [Limit.add_order], by simp [Limit.add_order]⟩
    · simp at hMem
  | cons L rest ih =>
    intro h L' hL'
    rw [insertIntoSide] at hL'
    split at hL'
    · rcases List.mem_cons.mp hL' with hEq | hMem
      · subst hEq
        obtain ⟨h1, h2⟩ := h L (List.mem_cons_self _ _)
        exact ⟨by simp [Limit.add_order, h1], by simp [Limit.add_order, h2]⟩
      · exact h _ (List.mem_cons_of_mem _ hMem)
    · split at hL'
      · split at hL'
        · rcases List.mem_cons.mp hL' with hEq | hMem
          · subst hEq
            exact ⟨by simp [Limit.add_order], by simp [Limit.add_order]⟩
          · exact h _ hMem
        · rcases List.mem_cons.mp hL' with hEq | hMem
          · subst hEq
            exact h _ (List.mem_cons_self _ _)
          · exact ih (fun M hM => h M (List.mem_cons_of_mem _ hM)) _ hMem
      · split at hL'
        · rcases List.mem_cons.mp hL' with hEq | hMem
          · subst hEq
            exact ⟨by simp [Limit.add_order], by simp [Limit.add_order]⟩
          · exact h _ hMem
        · rcases List.mem_cons.mp hL' with hEq | hMem
          · subst hEq
            exact h _ (List.mem_cons_self _ _)
          · exact ih (fun M hM => h M (List.mem_cons_of_mem _ hM)) _ hMem

/-- Lemma: `OrderBook.add_order` preserves the book-wide level invariant. -/
theorem add_order_inv (b : OrderBook) (o : Order) (b' : OrderBook)
    (hadd : b.add_order o = some b') (h : bookInv b) : bookInv b' := by
  rw [OrderBook.add_order] at hadd
  split at hadd
  · exact absurd hadd (by simp)
  · obtain ⟨h1, h2⟩ := h
    cases hside : o.side <;> rw [hside] at hadd <;>
      simp only [Option.some.injEq] at hadd <;> subst hadd
    · exact ⟨insertIntoSide_inv _ _ _ _ h1, h2⟩
    · exact ⟨h1, insertIntoSide_inv _ _ _ _ h2⟩

/-- Lemma: `match_order` preserves the book-wide level invariant. -/
theorem match_order_inv (b : OrderBook) (o : Order) (res : MatchResult)
    (hm : match_order b o = some res) (h : bookInv b) : bookInv res.book := by
  obtain ⟨h1, h2⟩ := h
  rw [match_order] at hm
  cases hside : o.side <;> rw [hside] at hm <;> dsimp only at hm
  · split at hm
    · rcases Option.map_eq_some'.mp hm with ⟨b2, hb2, hres⟩
      subst hres
      exact add_order_inv _ _ _ hb2
        ⟨h1, matchLoop_inv _ _ _ _ _ _ _ h2⟩
    · simp only [Option.some.injEq] at hm
      subst hm
      exact ⟨h1, matchLoop_inv _ _ _ _ _ _ _ h2⟩
  · split at hm
    · rcases Option.map_eq_some'.mp hm with ⟨b2, hb2, hres⟩
      subst hres
      exact add_order_inv _ _ _ hb2
        ⟨matchLoop_inv _ _ _ _ _ _ _ h1, h2⟩
    · simp only [Option.some.injEq] at hm
      subst hm
      exact ⟨matchLoop_inv _ _ _ _ _ _ _ h1, h2⟩

/-- Finding then erasing by the same predicate accounts exactly for the found
order's quantity and for one queue slot. -/
theorem find_erase_spec (f : Order → Bool) :
    ∀ (l : List Order) (o : Order), l.find? f = some o →
      sumQty (l.eraseP f) + o.quantity = sumQty l ∧
      (l.eraseP f).length + 1 = l.length := by
  intro l
  induction l with
  | nil => intro o h; simp [List.find?] at h
  | cons a t ih =>
    intro o h
    by_cases hf : f a
    · rw [List.find?_cons_of_pos _ hf] at h
      simp only [Option.some.injEq] at h
      subst h
      rw [List.eraseP_cons_of_pos hf]
      constructor
      · simp [sumQty]; ring
      · simp
    · rw [List.find?_cons_of_neg _ hf] at h
      obtain ⟨ih1, ih2⟩ := ih o h
      rw [List.eraseP_cons_of_neg hf]
      constructor
      · simp only [sumQty_cons]; omega
      · simp only [List.length_cons]; omega

/-- Removing an order from a side keeps every surviving level consistent. -/
theorem cancelInSide_inv (p : ℚ) (oid : Nat) :
    ∀ levels, (∀ L ∈ levels, levelInv L) →
      ∀ L' ∈ (cancelInSide p oid levels).2, levelInv L' := by
  intro levels
  induction levels with
  | nil => intro _ L' hL'; simp [cancelInSide] at hL'
  | cons L rest ih =>
    intro h L' hL'
    rw [cancelInSide] at hL'
    split at hL'
    · split at hL'
      · exact h _ hL'
      · rename_i o hfind
        dsimp only at hL'
        split at hL'
        · exact h _ (List.mem_cons_of_mem _ hL')
        · rcases List.mem_cons.mp hL' with hEq | hMem
          · subst hEq
            obtain ⟨h1, h2⟩ := h L (List.mem_cons_self _ _)
            obtain ⟨e1, e2⟩ := find_erase_spec _ _ _ hfind
            have hoid : o.order_id = oid := by
              have := List.find?_some hfind
              simpa using this
            refine ⟨?_, ?_⟩ <;> dsimp only [levelInv, Limit.remove_order] <;>
              rw [hoid] <;> omega
          · exact h _ (List.mem_cons_of_mem _ hMem)
    · rcases List.mem_cons.mp hL' with hEq | hMem
      · subst hEq
        exact h _ (List.mem_cons_self _ _)
      · exact ih (fun M hM => h M (List.mem_cons_of_mem _ hM)) _ hMem

/-- Lemma: `OrderBook.cancel_order` preserves the book-wide level invariant. -/
theorem cancel_order_inv (b : OrderBook) (oid : Nat)
    (h : bookInv b) : bookInv (b.cancel_order oid).2 := by
  obtain ⟨h1, h2⟩ := h
  rw [OrderBook.cancel_order]
  split
  · exact ⟨h1, h2⟩
  · rename_i hfound
    split
    · exact ⟨cancelInSide_inv _ _ _ h1, h2⟩
    · exact ⟨h1, cancelInSide_inv _ _ _ h2⟩

/-- The taker's order type enters `match_order` only through the two
`order_type == LIMIT` tests (the walk's price condition and the rest-on-book
decision), so every non-LIMIT taker behaves exactly as a MARKET taker. -/
theorem match_order_type_irrel (b : OrderBook) (o : Order)
    (h : o.order_type ≠ OrderType.LIMIT) :
    match_order b o = match_order b { o with order_type := OrderType.MARKET } := by
  have h1 : (decide (o.order_type = OrderType.LIMIT)) = false := by simpa using h
  rw [match_order, match_order]
  cases hside : o.side <;> dsimp only <;> simp [h, h1]

/-- A non-LIMIT taker adds nothing to the handle table: the resulting
handles are a subset of the original ones. -/
theorem match_order_nonlimit_handles (b : OrderBook) (o : Order) (res : MatchResult)
    (h : o.order_type ≠ OrderType.LIMIT) (hm : match_order b o = some res) :
    ∀ hd ∈ res.book.handles, hd ∈ b.handles := by
  rw [match_order] at hm
  cases hside : o.side <;> rw [hside] at hm <;> dsimp only at hm <;>
  · rw [if_neg (fun hc => h hc.2)] at hm
    simp only [Option.some.injEq] at hm
    subst hm
    intro hd hhd
    exact (List.mem_filter.mp hhd).1

/-- A handle lookup over ids none of which is `oid` fails. -/
theorem find_handle_none (hs : List Handle) (oid : Nat)
    (h : ∀ x ∈ hs, x.1 ≠ oid) : hs.find? (fun x => x.1 == oid) = none :=
  List.find?_eq_none.mpr (fun x hx => by simp [h x hx])

/-- Under distinct handle ids, erasing the entry for `oid` leaves no entry
for `oid`. -/
theorem eraseP_fst_ne (oid : Nat) :
    ∀ (l : List Handle), (l.map Prod.fst).Nodup →
      ∀ x ∈ l.eraseP (fun h => h.1 == oid), x.1 ≠ oid := by
  intro l
  induction l with
  | nil => simp
  | cons a t ih =>
    intro hnd x hx
    rw [List.map_cons, List.nodup_cons] at hnd
    by_cases ha : a.1 = oid
    · rw [List.eraseP_cons_of_pos (by simp [ha])] at hx
      intro hxq
      exact hnd.1 (by rw [ha, ← hxq]; exact List.mem_map_of_mem _ hx)
    · rw [List.eraseP_cons_of_neg (by simp [ha])] at hx
      rcases List.mem_cons.mp hx with hEq | hMem
      · subst hEq; exact ha
      · exact ih hnd.2 x hMem

/-- If the first level at price `p` holds an order with id `oid`, the
side-removal returns that order. -/
theorem cancelInSide_found (p : ℚ) (oid : Nat) :
    ∀ (levels : List Limit) (L : Limit) (o : Order),
      levels.find? (fun M => M.price == p) = some L →
      L.orders.find? (fun x => x.order_id == oid) = some o →
      (cancelInSide p oid levels).1 = some o := by
  intro levels
  induction levels with
  | nil => intro L o h _; simp [List.find?] at h
  | cons M rest ih =>
    intro L o hfind horder
    by_cases hp : M.price = p
    · rw [List.find?_cons_of_pos _ (by simp [hp])] at hfind
      simp only [Option.some.injEq] at hfind
      subst hfind
      rw [cancelInSide, if_pos hp, horder]
      dsimp only
      split <;> rfl
    · rw [List.find?_cons_of_neg _ (by simp [hp])] at hfind
      rw [cancelInSide, if_neg hp]
      exact ih L o hfind horder

/-- When the removed order was the level's last one (`order_count` reaches
0), the level itself is deleted: under distinct level prices no level at
price `p` survives on that side. -/
theorem cancelInSide_removes (p : ℚ) (oid : Nat) :
    ∀ (levels : List Limit) (L : Limit) (o : Order),
      (levels.map Limit.price).Nodup →
      levels.find? (fun M => M.price == p) = some L →
      L.orders.find? (fun x => x.order_id == oid) = some o →
      (L.remove_order o).order_count = 0 →
      ∀ M ∈ (cancelInSide p oid levels).2, M.price ≠ p := by
  intro levels
  induction levels with
  | nil => intro L o _ h; simp [List.find?] at h
  | cons N rest ih =>
    intro L o hnd hfind horder hcount
    rw [List.map_cons, List.nodup_cons] at hnd
    by_cases hp : N.price = p
    · rw [List.find?_cons_of_pos _ (by simp [hp])] at hfind
      simp only [Option.some.injEq] at hfind
      subst hfind
      rw [cancelInSide, if_pos hp, horder]
      dsimp only
      rw [if_pos hcount]
      intro M hM hMp
      apply hnd.1
      rw [hp, ← hMp]
      exact List.mem_map_of_mem _ hM
    · rw [List.find?_cons_of_neg _ (by simp [hp])] at hfind
      rw [cancelInSide, if_neg hp]
      intro M hM
      dsimp only at hM
      rcases List.mem_cons.mp hM with hEq | hMem
      · subst hEq; exact hp
      · exact ih L o hnd.2 hfind horder hcount M hMem

/-- Cancelling an id whose handle lookup fails leaves the book untouched and
returns `None`. -/
theorem cancel_order_absent (b : OrderBook) (oid : Nat)
    (h : b.handles.find? (fun x => x.1 == oid) = none) :
    b.cancel_order oid = (none, b) := by
  rw [OrderBook.cancel_order, h]

theorem getPriceBand_nonneg (cat : String) : 0 ≤ getPriceBand cat := by
  rw [getPriceBand]
  split_ifs <;> norm_num

theorem getPriceBand_default : getPriceBand "default" = 20/100 := by
  rw [getPriceBand, if_neg (by decide), if_neg (by decide), if_neg (by decide),
    if_neg (by decide)]

theorem getPriceBand_fno : getPriceBand "fno_stocks" = 10/100 := by
  rw [getPriceBand, if_neg (by decide), if_neg (by decide), if_neg (by decide),
    if_pos (by decide)]

/-- The monitor state for reference price 100, default category, with the
derived bands evaluated. -/
theorem init_default_eq :
    CircuitBreakerMonitor.init 100 "default" =
      ⟨100, "default", false, none, 20/100, 120, 80⟩ := by
  simp only [CircuitBreakerMonitor.init, getPriceBand_default]
  norm_num

/-- The monitor state for reference price 100, F&O category, with the
derived bands evaluated. -/
theorem init_fno_eq :
    CircuitBreakerMonitor.init 100 "fno_stocks" =
      ⟨100, "fno_stocks", false, none, 10/100, 110, 90⟩ := by
  simp only [CircuitBreakerMonitor.init, getPriceBand_fno]
  norm_num

/-! ## Claims -/

/-- Claim C1, counterexample.  The claim says an FOK order whose quantity (25)
exceeds the opposite volume available within its limit price (8 + 12 = 20 at
prices ≤ 102) is rejected with no trades and an unchanged book.  The engine
instead emits both trades and empties the ask side. -/
theorem C1_fok_counterexample :
    (bookTwoAsks.asks.map (fun L => sumQty L.orders)).sum = 20 ∧
    fokBuy25.quantity = 25 ∧ fokBuy25.price = some 102 ∧
    match_order bookTwoAsks fokBuy25 =
      some ⟨[⟨1, 3, 101, 8, 0⟩, ⟨2, 3, 102, 12, 0⟩], ⟨[], [], []⟩⟩ ∧
    (match_order bookTwoAsks fokBuy25).map MatchResult.trades ≠ some [] ∧
    (match_order bookTwoAsks fokBuy25).map MatchResult.book ≠ some bookTwoAsks := by
  refine ⟨by decide, by decide, by decide, by decide, by decide, by decide⟩

/-- Claim C1, amended.  The engine performs no fill-or-kill pre-check: an FOK
order is processed exactly as a MARKET order (identical trades and resulting
book, hence partial fills and sweeps beyond its limit price), and its
remainder is never added to the book. -/
theorem C1_fok_market_equiv (b : OrderBook) (o : Order)
    (h : o.order_type = OrderType.FOK) :
    match_order b o = match_order b { o with order_type := OrderType.MARKET } ∧
    ∀ res, match_order b o = some res → ∀ hd ∈ res.book.handles, hd ∈ b.handles := by
  have hne : o.order_type ≠ OrderType.LIMIT := by simp [h]
  exact ⟨match_order_type_irrel b o hne,
    fun res hm => match_order_nonlimit_handles b o res hne hm⟩

/-- Claim C1, witness for the amended theorem at a concrete book and order. -/
theorem C1_fok_witness :
    fokBuy25.order_type = OrderType.FOK ∧
    match_order bookTwoAsks fokBuy25 =
      match_order bookTwoAsks { fokBuy25 with order_type := OrderType.MARKET } :=
  ⟨rfl, (C1_fok_market_equiv bookTwoAsks fokBuy25 rfl).1⟩

/-- Claim C2 (code bug).  `post_trade_check` is the identity on the compliance
state for every input: the halt mutation is commented out in the source.  At
the failing input — reference 100, trade price 115 (a 15% ≥ 10% deviation),
10:00 — the breaker reports `triggered`, yet `market_halted` stays `false`
and a subsequent submission at 10:50 still passes validation, where the claim
requires it to be rejected as market-halted. -/
theorem C2_halt_never_set :
    (∀ cb p t, post_trade_check cb p t = cb) ∧
    (10 : ℚ)/100 ≤ |(115 : ℚ) - 100| / 100 ∧
    (check_index_circuit_breaker (CircuitBreakerMonitor.init 100 "default") 115 600).triggered
      = true ∧
    (post_trade_check (CircuitBreakerMonitor.init 100 "default") 115 600).market_halted = false ∧
    (validate_order (post_trade_check (CircuitBreakerMonitor.init 100 "default") 115 600)
        ⟨2, 1, OrderSide.BUY, 5, OrderType.LIMIT, 0, some 100, none⟩ 650).1 = true := by
  have habs : |(115 : ℚ) - 100| = 15 := by
    rw [abs_of_nonneg (by norm_num : (0 : ℚ) ≤ 115 - 100)]
    norm_num
  refine ⟨fun cb p t => rfl, ?_, ?_, rfl, ?_⟩
  · rw [habs]; norm_num
  · rw [init_default_eq]
    norm_num [check_index_circuit_breaker, habs]
  · rw [init_default_eq]
    decide

/-- Claim C3 (code bug).  A STOP_LOSS order is not stored out-of-book: at
submission the engine matches it immediately like a MARKET order.  Against a
resting ask of 8 @ 101, STOP_LOSS BUY 5 (trigger 105, not yet reached by any
trade) produces a trade of 5 @ 101 at once, where the claim requires no
trades at submission time. -/
theorem C3_stop_loss_trades_immediately :
    stopBuy5.order_type = OrderType.STOP_LOSS ∧
    match_order bookAsk101 stopBuy5 =
      some ⟨[⟨1, 2, 101, 5, 0⟩],
        ⟨[], [⟨101, 3, 1, [⟨1, 1, OrderSide.SELL, 3, OrderType.LIMIT, 0, some 101, none⟩]⟩],
         [(1, OrderSide.SELL, 101)]⟩⟩ ∧
    (match_order bookAsk101 stopBuy5).map MatchResult.trades ≠ some [] := by
  refine ⟨rfl, by decide, by decide⟩

/-- Claim C4, counterexample.  The claim says an IOC BUY matches only while
`best_ask` is at most its limit price.  With a single ask at 105 and an IOC
BUY limited to 100, the engine nevertheless trades 5 @ 105. -/
theorem C4_ioc_counterexample :
    (100 : ℚ) < 105 ∧
    bookAsk105.best_ask = some 105 ∧ iocBuy5.price = some 100 ∧
    (match_order bookAsk105 iocBuy5).map MatchResult.trades = some [⟨1, 2, 105, 5, 0⟩] := by
  refine ⟨by norm_num, by decide, by decide, by decide⟩

/-- Claim C4, amended.  An IOC order's walk is not bounded by its limit price:
the engine processes IOC exactly as MARKET (identical trades and resulting
book).  The true half of the claim stands: the unfilled remainder is
discarded, never added to the book. -/
theorem C4_ioc_market_equiv (b : OrderBook) (o : Order)
    (h : o.order_type = OrderType.IOC) :
    match_order b o = match_order b { o with order_type := OrderType.MARKET } ∧
    ∀ res, match_order b o = some res → ∀ hd ∈ res.book.handles, hd ∈ b.handles := by
  have hne : o.order_type ≠ OrderType.LIMIT := by simp [h]
  exact ⟨match_order_type_irrel b o hne,
    fun res hm => match_order_nonlimit_handles b o res hne hm⟩

/-- Claim C4, witness for the amended theorem at a concrete book and order. -/
theorem C4_ioc_witness :
    iocBuy5.order_type = OrderType.IOC ∧
    match_order bookAsk105 iocBuy5 =
      match_order bookAsk105 { iocBuy5 with order_type := OrderType.MARKET } :=
  ⟨rfl, (C4_ioc_market_equiv bookAsk105 iocBuy5 rfl).1⟩

/-- Claim C5 (code bug).  `get_current_session` ignores the time and returns
"regular" (the source hardcodes it, the window logic is commented out).  At
03:00 (minute 180), which lies outside every session window, a LIMIT order is
allowed and passes validation, where the claim requires every order type to
be rejected with a reason naming the closed session. -/
theorem C5_session_hardcoded :
    (∀ t, get_current_session t = "regular") ∧
    ¬ (9 * 60 ≤ 180 ∧ 180 < 16 * 60) ∧
    is_order_allowed OrderType.LIMIT 180 = true ∧
    (validate_order (CircuitBreakerMonitor.init 100 "default")
        ⟨1, 1, OrderSide.BUY, 5, OrderType.LIMIT, 0, some 100, none⟩ 180).1 = true := by
  refine ⟨fun t => rfl, by decide, rfl, ?_⟩
  rw [init_default_eq]
  decide

/-- Claim C6, counterexample.  The claim says the gate rejects non-positive
quantities and missing prices on LIMIT/IOC/FOK.  In a fresh compliance state
during an allowed session, a zero-quantity LIMIT, a price-less LIMIT, and a
price-less negative-quantity IOC all pass validation. -/
theorem C6_gate_counterexample :
    validate_order (CircuitBreakerMonitor.init 100 "default")
        ⟨1, 1, OrderSide.BUY, 0, OrderType.LIMIT, 0, some 100, none⟩ 600
      = (true, Reason.compliant) ∧
    validate_order (CircuitBreakerMonitor.init 100 "default")
        ⟨2, 1, OrderSide.BUY, 5, OrderType.LIMIT, 0, none, none⟩ 600
      = (true, Reason.compliant) ∧
    validate_order (CircuitBreakerMonitor.init 100 "default")
        ⟨3, 1, OrderSide.SELL, -4, OrderType.IOC, 0, none, none⟩ 600
      = (true, Reason.compliant) := by
  rw [init_default_eq]
  refine ⟨by decide, by decide, by decide⟩

/-- Claim C6, amended.  The gate performs no quantity or price-presence
checks: validation is entirely independent of the order's quantity, and an
order with no price skips the band check, so it passes whenever the halt and
session checks pass. -/
theorem C6_gate_no_quantity_or_price_checks :
    (∀ cb (o : Order) t q1 q2,
        validate_order cb { o with quantity := q1 } t
          = validate_order cb { o with quantity := q2 } t) ∧
    (∀ cb (o : Order) t, cb.market_halted = false →
        is_order_allowed o.order_type t = true → o.price = none →
        validate_order cb o t = (true, Reason.compliant)) := by
  constructor
  · intro cb o t q1 q2
    rfl
  · intro cb o t hh ha hp
    rw [validate_order, if_neg (by simp [hh]), if_neg (by simp [ha]),
      if_neg (by simp [hp, priceTruthy])]

/-- Claim C6, witness for the amended theorem at concrete inputs. -/
theorem C6_witness :
    validate_order (CircuitBreakerMonitor.init 100 "default")
        ⟨1, 1, OrderSide.BUY, 7, OrderType.LIMIT, 0, some 100, none⟩ 600
      = validate_order (CircuitBreakerMonitor.init 100 "default")
          ⟨1, 1, OrderSide.BUY, -7, OrderType.LIMIT, 0, some 100, none⟩ 600 ∧
    validate_order (CircuitBreakerMonitor.init 100 "default")
        ⟨2, 1, OrderSide.BUY, 5, OrderType.MARKET, 0, none, none⟩ 600
      = (true, Reason.compliant) :=
  ⟨C6_gate_no_quantity_or_price_checks.1 (CircuitBreakerMonitor.init 100 "default")
      ⟨1, 1, OrderSide.BUY, 0, OrderType.LIMIT, 0, some 100, none⟩ 600 7 (-7),
   C6_gate_no_quantity_or_price_checks.2 (CircuitBreakerMonitor.init 100 "default")
      ⟨2, 1, OrderSide.BUY, 5, OrderType.MARKET, 0, none, none⟩ 600 rfl rfl rfl⟩

/-- Claim C7 (confirmed).  If every level of the book satisfies
`total_volume = Σ remaining quantities` and `order_count = |queue|`, then
after any `submit_order` (covering partial fills of resting makers, whose
traded amount the engine subtracts from the level as each fill happens) and
after any `cancel_order`, every level of the resulting book still does. -/
theorem C7_level_aggregates_invariant (ex : Exchange) (hinv : bookInv ex.book) :
    (∀ a sd q ot pr tp t ts out,
        Exchange.submit_order ex a sd q ot pr tp t ts = some out →
        bookInv out.2.2.2.book) ∧
    (∀ oid, bookInv (Exchange.cancel_order ex oid).2.book) := by
  constructor
  · intro a sd q ot pr tp t ts out hsub
    rw [Exchange.submit_order] at hsub
    dsimp only at hsub
    split at hsub
    · simp only [Option.some.injEq] at hsub
      subst hsub
      exact hinv
    · split at hsub
      · exact absurd hsub (by simp)
      · rename_i res hres
        simp only [Option.some.injEq] at hsub
        subst hsub
        exact match_order_inv _ _ _ hres hinv
  · intro oid
    exact cancel_order_inv ex.book oid hinv

/-- Claim C7, witness: the invariant holds on a fresh exchange, and is carried
through a concrete submit and a concrete cancel by the theorem. -/
theorem C7_witness :
    bookInv exchangeW.book ∧
    bookInv (((exchangeW.submit_order 1 OrderSide.BUY 10 OrderType.LIMIT (some 99) none 600 1).getD
        (false, Reason.accepted, [], exchangeW)).2.2.2.book) ∧
    bookInv ((exchangeW.cancel_order 1).2.book) :=
  ⟨by decide,
   (C7_level_aggregates_invariant exchangeW (by decide)).1
      1 OrderSide.BUY 10 OrderType.LIMIT (some 99) none 600 1 _ (by decide),
   (C7_level_aggregates_invariant exchangeW (by decide)).2 1⟩

/-- Claim C8 (confirmed).  The price-band check is inclusive: for any
non-negative reference price the monitor accepts a price equal to its own
`upper_band`; a price strictly above `upper_band` is rejected by
`validate_order` with the band values in the reason; and any validation
rejection returns the order-allocation-only updated exchange — book and
compliance state unchanged. -/
theorem C8_band_edge_inclusive :
    (∀ (ref : ℚ) cat, 0 ≤ ref →
        check_price_band (CircuitBreakerMonitor.init ref cat)
          (CircuitBreakerMonitor.init ref cat).upper_band = true) ∧
    (∀ (ref : ℚ) cat (o : Order) t p, 0 ≤ ref → o.price = some p →
        (CircuitBreakerMonitor.init ref cat).upper_band < p →
        is_order_allowed o.order_type t = true →
        validate_order (CircuitBreakerMonitor.init ref cat) o t =
          (false, Reason.priceBand p (CircuitBreakerMonitor.init ref cat).lower_band
            (CircuitBreakerMonitor.init ref cat).upper_band)) ∧
    (∀ ex a sd q ot pr tp t ts,
        (validate_order ex.compliance ⟨ex.order_id_counter + 1, a, sd, q, ot, ts, pr, tp⟩ t).1
          = false →
        Exchange.submit_order ex a sd q ot pr tp t ts =
          some (false,
            (validate_order ex.compliance ⟨ex.order_id_counter + 1, a, sd, q, ot, ts, pr, tp⟩ t).2,
            [], { ex with order_id_counter := ex.order_id_counter + 1 })) := by
  refine ⟨?_, ?_, ?_⟩
  · intro ref cat href
    have hpb := getPriceBand_nonneg cat
    rw [check_price_band]
    simp only [CircuitBreakerMonitor.init, Bool.and_eq_true, decide_eq_true_eq]
    constructor
    · exact mul_le_mul_of_nonneg_left (by linarith) href
    · exact le_refl _
  · intro ref cat o t p href hop hup hall
    have hpb := getPriceBand_nonneg cat
    have hub : (0 : ℚ) ≤ (CircuitBreakerMonitor.init ref cat).upper_band := by
      dsimp only [CircuitBreakerMonitor.init]
      exact mul_nonneg href (by linarith)
    have hp0 : p ≠ 0 := by
      intro h0
      rw [h0] at hup
      linarith
    rw [validate_order, if_neg (by simp [CircuitBreakerMonitor.init]),
      if_neg (by simp [hall]),
      if_pos (by simp [hop, priceTruthy, hp0, check_price_band, not_le.mpr hup])]
    rw [hop]
    rfl
  · intro ex a sd q ot pr tp t ts hv
    rw [Exchange.submit_order]
    dsimp only
    rw [if_pos hv]

/-- Claim C8, witness at reference 100, F&O category (band 10%, bands 90–110):
110 passes the band check, a LIMIT BUY at 111 is rejected with the band
values, and the rejecting submit leaves book and compliance intact. -/
theorem C8_witness :
    check_price_band (CircuitBreakerMonitor.init 100 "fno_stocks")
      (CircuitBreakerMonitor.init 100 "fno_stocks").upper_band = true ∧
    validate_order (CircuitBreakerMonitor.init 100 "fno_stocks")
        ⟨1, 1, OrderSide.BUY, 10, OrderType.LIMIT, 0, some 111, none⟩ 600 =
      (false, Reason.priceBand 111 (CircuitBreakerMonitor.init 100 "fno_stocks").lower_band
        (CircuitBreakerMonitor.init 100 "fno_stocks").upper_band) ∧
    Exchange.submit_order (Exchange.init 100 "fno_stocks") 1 OrderSide.BUY 10 OrderType.LIMIT
        (some 111) none 600 0 =
      some (false,
        (validate_order (Exchange.init 100 "fno_stocks").compliance
          ⟨1, 1, OrderSide.BUY, 10, OrderType.LIMIT, 0, some 111, none⟩ 600).2,
        [], { Exchange.init 100 "fno_stocks" with order_id_counter := 1 }) :=
  ⟨C8_band_edge_inclusive.1 100 "fno_stocks" (by norm_num),
   C8_band_edge_inclusive.2.1 100 "fno_stocks"
      ⟨1, 1, OrderSide.BUY, 10, OrderType.LIMIT, 0, some 111, none⟩ 600 111 (by norm_num) rfl
      (by rw [init_fno_eq]; norm_num) rfl,
   C8_band_edge_inclusive.2.2 (Exchange.init 100 "fno_stocks") 1 OrderSide.BUY 10
      OrderType.LIMIT (some 111) none 600 0
      (by rw [show (Exchange.init 100 "fno_stocks").compliance
            = CircuitBreakerMonitor.init 100 "fno_stocks" from rfl, init_fno_eq]; decide)⟩

/-- Claim C9 (confirmed).  Cancellation succeeds at most once per id: an id
absent from the handle table is a no-op returning `false`; with distinct
handle ids, a second cancel of the same id returns `false`; and the first
cancel of a resting order returns `true` and, when the order was alone at
its level and level prices are distinct, removes the whole level from that
side. -/
theorem C9_cancel_exactly_once :
    (∀ ex oid, (∀ h ∈ ex.book.handles, h.1 ≠ oid) →
        Exchange.cancel_order ex oid = (false, ex)) ∧
    (∀ ex oid, (ex.book.handles.map Prod.fst).Nodup →
        ((Exchange.cancel_order ex oid).2.cancel_order oid).1 = false) ∧
    (∀ ex oid s p L o,
        ex.book.handles.find? (fun h => h.1 == oid) = some (oid, s, p) →
        (ex.book.sideLevels s).find? (fun M => M.price == p) = some L →
        L.orders.find? (fun x => x.order_id == oid) = some o →
        (Exchange.cancel_order ex oid).1 = true ∧
        (((ex.book.sideLevels s).map Limit.price).Nodup →
          (L.remove_order o).order_count = 0 →
          ∀ M ∈ ((Exchange.cancel_order ex oid).2.book.sideLevels s), M.price ≠ p)) := by
  refine ⟨?_, ?_, ?_⟩
  · intro ex oid h
    show ((ex.book.cancel_order oid).1.isSome, _) = (false, ex)
    rw [cancel_order_absent ex.book oid (find_handle_none _ _ h)]
    rfl
  · intro ex oid hnd
    show ((((Exchange.cancel_order ex oid).2.book).cancel_order oid).1.isSome = false)
    rcases hfind : ex.book.handles.find? (fun x => x.1 == oid) with _ | h
    · have h1 : (Exchange.cancel_order ex oid).2.book = ex.book := by
        show (ex.book.cancel_order oid).2 = ex.book
        rw [cancel_order_absent ex.book oid hfind]
      rw [h1, cancel_order_absent ex.book oid hfind]
      rfl
    · obtain ⟨i, s, p⟩ := h
      have h2 : (Exchange.cancel_order ex oid).2.book.handles =
          ex.book.handles.eraseP (fun x => x.1 == oid) := by
        show ((ex.book.cancel_order oid).2).handles = _
        rw [OrderBook.cancel_order, hfind]
        cases s <;> rfl
      have h3 : (Exchange.cancel_order ex oid).2.book.handles.find?
          (fun x => x.1 == oid) = none := by
        rw [h2]
        exact find_handle_none _ _ (eraseP_fst_ne oid ex.book.handles hnd)
      rw [cancel_order_absent _ oid h3]
      rfl
  · intro ex oid s p L o hfind hlev hord
    cases s with
    | BUY =>
      have hlev' : ex.book.bids.find? (fun M => M.price == p) = some L := hlev
      have hbk : ex.book.cancel_order oid =
          ((cancelInSide p oid ex.book.bids).1,
            ⟨(cancelInSide p oid ex.book.bids).2, ex.book.asks,
              ex.book.handles.eraseP (fun x => x.1 == oid)⟩) := by
        rw [OrderBook.cancel_order, hfind]
      constructor
      · show ((ex.book.cancel_order oid).1.isSome = true)
        rw [hbk, cancelInSide_found p oid _ L o hlev' hord]
        rfl
      · intro hnp hcount M hM
        have hM' : M ∈ (cancelInSide p oid ex.book.bids).2 := by
          have hside : (Exchange.cancel_order ex oid).2.book.sideLevels OrderSide.BUY
              = (cancelInSide p oid ex.book.bids).2 := by
            show ((ex.book.cancel_order oid).2).sideLevels OrderSide.BUY = _
            rw [hbk]
            rfl
          rwa [hside] at hM
        exact cancelInSide_removes p oid _ L o hnp hlev' hord hcount M hM'
    | SELL =>
      have hlev' : ex.book.asks.find? (fun M => M.price == p) = some L := hlev
      have hbk : ex.book.cancel_order oid =
          ((cancelInSide p oid ex.book.asks).1,
            ⟨ex.book.bids, (cancelInSide p oid ex.book.asks).2,
              ex.book.handles.eraseP (fun x => x.1 == oid)⟩) := by
        rw [OrderBook.cancel_order, hfind]
      constructor
      · show ((ex.book.cancel_order oid).1.isSome = true)
        rw [hbk, cancelInSide_found p oid _ L o hlev' hord]
        rfl
      · intro hnp hcount M hM
        have hM' : M ∈ (cancelInSide p oid ex.book.asks).2 := by
          have hside : (Exchange.cancel_order ex oid).2.book.sideLevels OrderSide.SELL
              = (cancelInSide p oid ex.book.asks).2 := by
            show ((ex.book.cancel_order oid).2).sideLevels OrderSide.SELL = _
            rw [hbk]
            rfl
          rwa [hside] at hM
        exact cancelInSide_removes p oid _ L o hnp hlev' hord hcount M hM'

/-- Claim C9, witness: on a book holding the single resting order 1 (8 @ 101,
SELL), cancelling id 5 is a no-op returning false, the first cancel of id 1
returns true and removes the 101 level, and the second returns false. -/
theorem C9_witness :
    Exchange.cancel_order ⟨bookAsk101, ⟨100, "default", false, none, mkRat 1 5, 120, 80⟩, 2⟩ 5 =
      (false, ⟨bookAsk101, ⟨100, "default", false, none, mkRat 1 5, 120, 80⟩, 2⟩) ∧
    (Exchange.cancel_order ⟨bookAsk101, ⟨100, "default", false, none, mkRat 1 5, 120, 80⟩, 2⟩ 1).1
      = true ∧
    ((Exchange.cancel_order
        ⟨bookAsk101, ⟨100, "default", false, none, mkRat 1 5, 120, 80⟩, 2⟩ 1).2.cancel_order 1).1
      = false :=
  ⟨C9_cancel_exactly_once.1 ⟨bookAsk101, ⟨100, "default", false, none, mkRat 1 5, 120, 80⟩, 2⟩ 5
      (by decide),
   (C9_cancel_exactly_once.2.2 ⟨bookAsk101, ⟨100, "default", false, none, mkRat 1 5, 120, 80⟩, 2⟩
      1 OrderSide.SELL 101 ⟨101, 8, 1, [⟨1, 1, OrderSide.SELL, 8, OrderType.LIMIT, 0, some 101, none⟩]⟩
      ⟨1, 1, OrderSide.SELL, 8, OrderType.LIMIT, 0, some 101, none⟩
      (by decide) (by decide) (by decide)).1,
   C9_cancel_exactly_once.2.1 ⟨bookAsk101, ⟨100, "default", false, none, mkRat 1 5, 120, 80⟩, 2⟩
      1 (by decide)⟩

/-- Claim C10 (confirmed, implicit).  The band check in `validate_order` is
guarded by the truthiness of `order.price`: an order with price `None` or
`0.0` skips it entirely, so in an un-halted state and an allowed session it
passes validation for every band configuration — although whenever the
reference price is positive and the band percentage is below 100%, the price
0 lies strictly below `lower_band` and would fail the band check. -/
theorem C10_zero_price_bypasses_band :
    (∀ cb (o : Order) t, cb.market_halted = false →
        is_order_allowed o.order_type t = true →
        (o.price = none ∨ o.price = some 0) →
        validate_order cb o t = (true, Reason.compliant)) ∧
    (∀ (ref : ℚ) cat, 0 < ref → getPriceBand cat < 1 →
        0 < (CircuitBreakerMonitor.init ref cat).lower_band ∧
        check_price_band (CircuitBreakerMonitor.init ref cat) 0 = false) := by
  constructor
  · intro cb o t hh ha hp
    rw [validate_order, if_neg (by simp [hh]), if_neg (by simp [ha]), if_neg ?_]
    rcases hp with hp | hp <;> simp [hp, priceTruthy]
  · intro ref cat href hband
    have hl : (0 : ℚ) < ref * (1 - getPriceBand cat) := by
      apply mul_pos href
      linarith
    refine ⟨hl, ?_⟩
    rw [check_price_band]
    simp only [CircuitBreakerMonitor.init]
    rw [decide_eq_false (not_le.mpr hl)]
    rfl

/-- Claim C10, witness: a price-0 LIMIT order passes validation against the
default band state, whose `lower_band` (80) the price 0 lies strictly
below. -/
theorem C10_witness :
    validate_order (CircuitBreakerMonitor.init 100 "default")
        ⟨1, 1, OrderSide.BUY, 5, OrderType.LIMIT, 0, some 0, none⟩ 600
      = (true, Reason.compliant) ∧
    0 < (CircuitBreakerMonitor.init 100 "default").lower_band ∧
    check_price_band (CircuitBreakerMonitor.init 100 "default") 0 = false :=
  ⟨C10_zero_price_bypasses_band.1 (CircuitBreakerMonitor.init 100 "default")
      ⟨1, 1, OrderSide.BUY, 5, OrderType.LIMIT, 0, some 0, none⟩ 600 rfl rfl (Or.inr rfl),
   (C10_zero_price_bypasses_band.2 100 "default" (by norm_num)
      (by rw [getPriceBand_default]; norm_num)).1,
   (C10_zero_price_bypasses_band.2 100 "default" (by norm_num)
      (by rw [getPriceBand_default]; norm_num)).2⟩

end LOB
